import Mathlib

/-!
# Verification of the gpui-plot coordinate-transform and rendering pipeline

The repository ships `src/examples/simple_curve.rs`, an example caller of the
gpui-plot library.  The library core (coordinate types, grid model, axes
transform, line primitive, figure composition) is not part of the shipped
sources, so those operations are modelled from the specification text; the
example's sampling loops are translated from `src/examples/simple_curve.rs`
directly.  Machine floating-point values are embedded as exact rationals.
-/

namespace GpuiPlot

/-- Modelled from the spec: `AxisRange {min, max}`, a 1-D data-space axis
range (`src` only uses it; the library definition is not in the repository).
Numeric values are embedded as rationals. -/
structure AxisRange where
  min : ℚ
  max : ℚ
deriving DecidableEq

/-- Modelled from the spec: `span()` returns `max - min`. -/
def AxisRange.span (r : AxisRange) : ℚ := r.max - r.min

/-- Modelled from the spec: the destination rectangle in screen/logical
space, supplied by the caller at render time. -/
structure DestRect where
  left : ℚ
  top : ℚ
  width : ℚ
  height : ℚ
deriving DecidableEq

/-- Modelled from the spec: the x-axis transform
`screen_x = dest.left + (data_x - range.min) / range.span() * dest.width`,
with the zero-span fraction defined as `0`. -/
def transformX (r : AxisRange) (d : DestRect) (x : ℚ) : ℚ :=
  d.left + (if r.span = 0 then 0 else (x - r.min) / r.span) * d.width

/-- Modelled from the spec: the y-flipped y-axis transform
`screen_y = dest.top + (range.max - data_y) / range.span() * dest.height`,
with the zero-span fraction defined as `0`. -/
def transformY (r : AxisRange) (d : DestRect) (y : ℚ) : ℚ :=
  d.top + (if r.span = 0 then 0 else (r.max - y) / r.span) * d.height

/-- Modelled from the spec: `AxesBounds` is a pair of `AxisRange`s. -/
structure AxesBounds where
  x : AxisRange
  y : AxisRange
deriving DecidableEq

/-- Modelled from the spec: the construction-time error taxonomy
(`InvalidRangeError` / `InvalidGridError`, both `ConstructionError`s). -/
inductive ConstructionError where
  | invalidRange
  | invalidGrid
deriving DecidableEq

/-- Modelled from the spec: a floating-point input value is either a finite
number (embedded exactly as a rational) or one of the non-finite values
NaN / +∞ / -∞ that `AxisRange::new` must reject. -/
inductive FloatVal where
  | finite (val : ℚ)
  | nan
  | posInf
  | negInf
deriving DecidableEq

/-- Modelled from the spec: `AxisRange::new(min, max)` fails with
`InvalidRangeError` if `min > max` or either bound is non-finite. -/
def AxisRange.new : FloatVal → FloatVal → Except ConstructionError AxisRange
  | .finite a, .finite b => if b < a then .error .invalidRange else .ok ⟨a, b⟩
  | _, _ => .error .invalidRange

/-- Modelled from the spec: `GridModel {x_divisions, y_divisions}`, division
counts only, no coordinates. -/
structure GridModel where
  xDivisions : ℕ
  yDivisions : ℕ
deriving DecidableEq

/-- Modelled from the spec: `from_numbers(x_divisions, y_divisions)` fails
with `InvalidGridError` if either count is negative. -/
def GridModel.from_numbers (x y : ℤ) : Except ConstructionError GridModel :=
  if x < 0 ∨ y < 0 then .error .invalidGrid else .ok ⟨x.toNat, y.toNat⟩

/-- Modelled from the spec: tick positions for one axis — `divisions + 1`
evenly spaced positions inclusive of both endpoints; when `divisions == 0`,
just the two endpoints. -/
def generateAxis (r : AxisRange) (d : ℕ) : List ℚ :=
  if d = 0 then [r.min, r.max]
  else (List.range (d + 1)).map fun (i : ℕ) => r.min + (i : ℚ) * r.span / (d : ℚ)

/-- Modelled from the spec: `generate(bounds)` returns the ordered x and y
tick-position sequences. -/
def GridModel.generate (g : GridModel) (b : AxesBounds) : List ℚ × List ℚ :=
  (generateAxis b.x g.xDivisions, generateAxis b.y g.yDivisions)

/-- A data-space point, as in `point2(x, y)` of the example. -/
abbrev Point2 : Type := ℚ × ℚ

/-- `point2(x, y)` constructor from the example source. -/
def point2 (x y : ℚ) : Point2 := (x, y)

/-- Modelled from the spec: `Line` is an ordered sequence of points plus a
style attribute (the color is abstracted to a tag; it does not affect
geometry). -/
structure Line where
  points : List Point2
  colorTag : ℕ
deriving DecidableEq

/-- Modelled from the spec: `Line::new()` creates an empty point sequence
with a default style. -/
def Line.new : Line := ⟨[], 0⟩

/-- Modelled from the spec: `.color(c)` returns a modified builder-style
instance, leaving the point sequence untouched. -/
def Line.color (l : Line) (c : ℕ) : Line := { l with colorTag := c }

/-- Modelled from the spec: `.add_point(p)` appends to the end, preserving
insertion order. -/
def Line.add_point (l : Line) (p : Point2) : Line :=
  { l with points := l.points ++ [p] }

/-- Modelled from the spec: `AxesContext` exposes the transform for one axes
region: the axes bounds plus the destination rectangle supplied at render
time. -/
structure AxesContext where
  bounds : AxesBounds
  dest : DestRect

/-- Modelled from the spec: `data_to_screen`, transforming a data-space point
through the x and (y-flipped) y affine maps. -/
def transformPoint (cx : AxesContext) (p : Point2) : Point2 :=
  (transformX cx.bounds.x cx.dest p.1, transformY cx.bounds.y cx.dest p.2)

/-- A resolved screen-space segment between two transformed points. -/
abbrev Segment : Type := Point2 × Point2

/-- Modelled from the spec: `Line::render_axes` walks the sequence once,
transforms each point via the context, and emits connected segments between
consecutive transformed points. -/
def Line.render_axes (l : Line) (cx : AxesContext) : List Segment :=
  let ts := l.points.map (transformPoint cx)
  ts.zip ts.tail

/-- Building a line by appending a list of points in order, as the example's
sampling loops do. -/
def buildLine (ps : List Point2) : Line := ps.foldl Line.add_point Line.new

/-- Modelled from the spec: `AxesModel` owns one `AxesBounds`, one
`GridModel`, and the ordered geometry elements attached to the axes. -/
structure AxesModel where
  bounds : AxesBounds
  grid : GridModel
  elements : List Line

/-- Modelled from the spec: `clear_elements()` empties the geometry list for
the axes without discarding the bounds/grid configuration. -/
def AxesModel.clear_elements (a : AxesModel) : AxesModel :=
  { a with elements := [] }

/-- Modelled from the spec: a plot owns a set of axes-model references. -/
structure PlotModel where
  axes : List AxesModel

/-- Modelled from the spec: `FigureModel` owns a title and an ordered
sequence of plots. -/
structure FigureModel where
  title : String
  plots : List PlotModel

/-- Modelled from the spec: `clear_plots()` discards all owned plots. -/
def FigureModel.clear_plots (m : FigureModel) : FigureModel :=
  { m with plots := [] }

/-- Modelled from the spec: `add_plot_with(builder)` constructs a new empty
plot, configures it through the builder, and appends it. -/
def FigureModel.add_plot_with (m : FigureModel) (builder : PlotModel → PlotModel) :
    FigureModel :=
  { m with plots := m.plots ++ [builder ⟨[]⟩] }

/-- The sampling step `0.05` of `SineCurve::render_axes`, embedded as the
exact value of the f64 literal `0.05` is not needed for the loop count; the
loop adds an exact multiple of `1/20` in the rational model. -/
def sampleStep : ℚ := 1 / 20

/-- The loop bound `2.0 * std::f64::consts::PI` of the example: the exact
rational value of the IEEE-754 double nearest to 2π. -/
def twoPi64 : ℚ := 884279719003555 / 140737488355328

/-- The sampling loop of `SineCurve::render_axes`
(`while x <= end { add_point; x += step }`), fuel-indexed so it is a total
structural recursion; enough fuel makes it coincide with the source loop. -/
def sampleLoop (fuel : ℕ) (x : ℚ) : List ℚ :=
  match fuel with
  | 0 => []
  | f + 1 => if x ≤ twoPi64 then x :: sampleLoop f (x + sampleStep) else []

/-- The x-coordinates sampled by the example's loops (fuel 200 is more than
the 126 iterations actually executed). -/
def sampleXs : List ℚ := sampleLoop 200 0

/-- The axes bounds declared by `CurvePlotView::new`: x from 0 to 2π
(f64 value), y from -1.5 to 1.5. -/
def exampleBounds : AxesBounds := ⟨⟨0, twoPi64⟩, ⟨-(3 / 2), 3 / 2⟩⟩

/-- A 0..800-wide destination, as in the end-to-end scenario (window width
800 declared in `main`). -/
def exampleDest : DestRect := ⟨0, 0, 800, 600⟩

/-- The per-axis tick-sequence specification used to state the grid claim:
strictly increasing, first = min, last = max, `d + 1` positions when
`d ≥ 1`, and exactly the two endpoints when `d = 0`. -/
def tickSpec (l : List ℚ) (r : AxisRange) (d : ℕ) : Prop :=
  l.Pairwise (· < ·) ∧ l.head? = some r.min ∧ l.getLast? = some r.max ∧
  (d ≠ 0 → l.length = d + 1) ∧ (d = 0 → l = [r.min, r.max])

/-- Claim C1: for every valid `AxisRange` with `min < max` and every
destination rectangle, the affine transform maps the range endpoints exactly
onto the destination endpoints: on the x axis `min ↦ dest.left` and
`max ↦ dest.left + dest.width`; on the (y-flipped) y axis the endpoints land
exactly on `dest.top` and `dest.top + dest.height`. -/
theorem transform_maps_endpoints (r : AxisRange) (d : DestRect)
    (h : r.min < r.max) :
    transformX r d r.min = d.left ∧
    transformX r d r.max = d.left + d.width ∧
    transformY r d r.max = d.top ∧
    transformY r d r.min = d.top + d.height := by
  have hs' : r.max - r.min ≠ 0 := sub_ne_zero.mpr (ne_of_gt h)
  have hs : r.span ≠ 0 := by rw [AxisRange.span]; exact hs'
  refine ⟨?_, ?_, ?_, ?_⟩
  · simp only [transformX, if_neg hs, sub_self, zero_div, zero_mul, add_zero]
  · simp only [transformX, if_neg hs, AxisRange.span, if_neg hs', div_self hs', one_mul]
  · simp only [transformY, if_neg hs, sub_self, zero_div, zero_mul, add_zero]
  · simp only [transformY, if_neg hs, AxisRange.span, if_neg hs', div_self hs', one_mul]

theorem transform_maps_endpoints_witness :
    ((0 : ℚ) < twoPi64) ∧
    (transformX ⟨0, twoPi64⟩ exampleDest 0 = 0 ∧
     transformX ⟨0, twoPi64⟩ exampleDest twoPi64 = 0 + 800 ∧
     transformY ⟨0, twoPi64⟩ exampleDest twoPi64 = 0 ∧
     transformY ⟨0, twoPi64⟩ exampleDest 0 = 0 + 600) :=
  ⟨by norm_num [twoPi64],
   transform_maps_endpoints ⟨0, twoPi64⟩ exampleDest (by norm_num [twoPi64])⟩

/-- Claim C2: for every degenerate `AxisRange` with `min = max` (zero span)
and any data coordinate, the zero-span fraction is defined as `0`, so the
transform maps every x to `dest.left` and every y to `dest.top` — no
division by zero occurs. -/
theorem degenerate_range_transform_constant (r : AxisRange) (d : DestRect)
    (h : r.min = r.max) :
    ∀ v : ℚ, transformX r d v = d.left ∧ transformY r d v = d.top := by
  intro v
  have hs : r.span = 0 := by simp [AxisRange.span, h]
  constructor <;> simp [transformX, transformY, hs]

theorem degenerate_range_transform_constant_witness :
    ((3 : ℚ) = 3) ∧
    (transformX ⟨3, 3⟩ exampleDest 17 = 0 ∧
     transformY ⟨3, 3⟩ exampleDest 17 = 0) :=
  ⟨rfl, degenerate_range_transform_constant ⟨3, 3⟩ exampleDest rfl 17⟩

/-- The grid claim as literally stated is contradictory at `d = 0`: the
generated sequence then has 2 positions (the two endpoints), not `0 + 1`. -/
theorem grid_generate_divisions_counterexample :
    ¬ ((GridModel.mk 0 0).generate ⟨⟨0, 1⟩, ⟨0, 1⟩⟩).1.length = 0 + 1 := by
  simp [GridModel.generate, generateAxis]

lemma generateAxis_tickSpec (r : AxisRange) (d : ℕ) (hr : r.min < r.max) :
    tickSpec (generateAxis r d) r d := by
  rcases Nat.eq_zero_or_pos d with hd | hd
  · subst hd
    refine ⟨?_, ?_, ?_, ?_, ?_⟩ <;> simp [generateAxis, tickSpec, hr]
  have hd0 : d ≠ 0 := Nat.pos_iff_ne_zero.mp hd
  have hdq : (0 : ℚ) < (d : ℚ) := by exact_mod_cast hd
  have hspan : (0 : ℚ) < r.span := by
    rw [AxisRange.span]; linarith
  have hgen : generateAxis r d =
      (List.range (d + 1)).map fun (i : ℕ) => r.min + (i : ℚ) * r.span / (d : ℚ) := by
    rw [generateAxis, if_neg hd0]
  refine ⟨?_, ?_, ?_, fun _ => ?_, fun h0 => absurd h0 hd0⟩
  · rw [hgen, List.pairwise_map]
    refine (List.pairwise_lt_range (d + 1)).imp ?_
    intro i j hij
    have hij' : (i : ℚ) < (j : ℚ) := by exact_mod_cast hij
    have h2 : (i : ℚ) * (r.span / (d : ℚ)) < (j : ℚ) * (r.span / (d : ℚ)) :=
      mul_lt_mul_of_pos_right hij' (div_pos hspan hdq)
    rw [← mul_div_assoc, ← mul_div_assoc] at h2
    linarith
  · rw [hgen, List.head?_map, List.range_succ_eq_map]
    simp
  · rw [hgen, List.range_succ, List.map_append]
    simp only [List.map_cons, List.map_nil]
    rw [List.getLast?_concat]
    have : r.min + (d : ℚ) * r.span / (d : ℚ) = r.max := by
      rw [mul_comm, mul_div_assoc, div_self (ne_of_gt hdq), mul_one,
        AxisRange.span]
      ring
    rw [this]
  · rw [hgen, List.length_map, List.length_range]

/-- Claim C3 (amended): for every `AxesBounds` whose axes satisfy
`min < max` and every division pair, `GridModel.generate` returns per axis a
strictly increasing, evenly spaced sequence with first position `min` and
last position `max`; for `d ≥ 1` it has exactly `d + 1` positions, and for
`d = 0` it is exactly the two endpoints `[min, max]` (2 positions, not
`0 + 1`). -/
theorem grid_generate_positions (b : AxesBounds) (g : GridModel)
    (hx : b.x.min < b.x.max) (hy : b.y.min < b.y.max) :
    tickSpec (g.generate b).1 b.x g.xDivisions ∧
    tickSpec (g.generate b).2 b.y g.yDivisions :=
  ⟨generateAxis_tickSpec b.x g.xDivisions hx,
   generateAxis_tickSpec b.y g.yDivisions hy⟩

theorem grid_generate_positions_witness :
    ((0 : ℚ) < 1) ∧ ((0 : ℚ) < 2) ∧
    (tickSpec ((GridModel.mk 2 0).generate ⟨⟨0, 1⟩, ⟨0, 2⟩⟩).1 ⟨0, 1⟩ 2 ∧
     tickSpec ((GridModel.mk 2 0).generate ⟨⟨0, 1⟩, ⟨0, 2⟩⟩).2 ⟨0, 2⟩ 0) :=
  ⟨by norm_num, by norm_num,
   grid_generate_positions ⟨⟨0, 1⟩, ⟨0, 2⟩⟩ ⟨2, 0⟩ (by norm_num) (by norm_num)⟩

/-- Claim C4: construction validates eagerly — `AxisRange::new` succeeds
exactly when both bounds are finite and `min ≤ max` (and then records
exactly those bounds, so every live range is internally valid), and
`GridModel::from_numbers` succeeds exactly when both counts are
non-negative; the spec's concrete failing examples fail with the expected
construction errors. Transforms and generation are total functions of
constructed values, so no failure can occur after construction. -/
theorem construction_validation :
    (∀ a b : FloatVal,
      (∃ r, AxisRange.new a b = .ok r) ↔
        ∃ qa qb, a = .finite qa ∧ b = .finite qb ∧ qa ≤ qb) ∧
    (∀ qa qb r, AxisRange.new (.finite qa) (.finite qb) = .ok r →
      r.min = qa ∧ r.max = qb ∧ qa ≤ qb) ∧
    (∀ x y : ℤ, (∃ g, GridModel.from_numbers x y = .ok g) ↔ 0 ≤ x ∧ 0 ≤ y) ∧
    AxisRange.new (.finite 5) (.finite 1) = .error .invalidRange ∧
    GridModel.from_numbers (-1) 8 = .error .invalidGrid := by
  refine ⟨?_, ?_, ?_, ?_, ?_⟩
  · intro a b
    constructor
    · rintro ⟨r, hr⟩
      cases a <;> cases b <;> try exact Except.noConfusion hr
      rename_i qa qb
      simp only [AxisRange.new] at hr
      split at hr
      · exact Except.noConfusion hr
      · rename_i hlt
        exact ⟨qa, qb, rfl, rfl, not_lt.mp hlt⟩
    · rintro ⟨qa, qb, rfl, rfl, hle⟩
      refine ⟨⟨qa, qb⟩, ?_⟩
      simp only [AxisRange.new]
      rw [if_neg (not_lt.mpr hle)]
  · intro qa qb r hr
    simp only [AxisRange.new] at hr
    split at hr
    · exact Except.noConfusion hr
    · rename_i hlt
      injection hr with h
      subst h
      exact ⟨rfl, rfl, not_lt.mp hlt⟩
  · intro x y
    constructor
    · rintro ⟨g, hg⟩
      by_cases hneg : x < 0 ∨ y < 0
      · simp [GridModel.from_numbers, hneg] at hg
      · push_neg at hneg
        exact hneg
    · rintro ⟨hx, hy⟩
      refine ⟨⟨x.toNat, y.toNat⟩, ?_⟩
      simp [GridModel.from_numbers, not_lt.mpr hx, not_lt.mpr hy]
  · simp only [AxisRange.new]
    rw [if_pos (by norm_num : (1 : ℚ) < 5)]
  · simp only [GridModel.from_numbers]
    rw [if_pos (Or.inl (by norm_num : (-1 : ℤ) < 0))]

theorem construction_validation_witness :
    ∃ r, AxisRange.new (.finite 0) (.finite 1) = .ok r :=
  (construction_validation.1 (.finite 0) (.finite 1)).mpr
    ⟨0, 1, rfl, rfl, by norm_num⟩

lemma zip_tail_getElem? {α : Type} :
    ∀ (l : List α) (i : ℕ),
      (l.zip l.tail)[i]? =
        (l[i]?).bind fun a => (l[i + 1]?).map fun b => (a, b) := by
  intro l
  induction l with
  | nil => intro i; simp
  | cons a t ih =>
    intro i
    cases t with
    | nil => cases i <;> simp
    | cons b t2 =>
      cases i with
      | zero => simp
      | succ i =>
        simp only [List.tail_cons, List.zip_cons_cons, List.getElem?_cons_succ]
        simpa only [List.tail_cons, List.getElem?_cons_succ] using ih i

lemma foldl_add_point_points :
    ∀ (ps : List Point2) (l : Line),
      (ps.foldl Line.add_point l).points = l.points ++ ps := by
  intro ps
  induction ps with
  | nil => intro l; simp
  | cons p ps ih =>
    intro l
    rw [List.foldl_cons, ih]
    simp [Line.add_point]

lemma buildLine_points (ps : List Point2) : (buildLine ps).points = ps := by
  rw [buildLine, foldl_add_point_points]
  rfl

/-- Claim C5: for a `Line` built by appending `n` points in order,
`render_axes` emits exactly `n - 1` segments; a line of 0 or 1 points emits
no segments (and no error); and the `i`-th segment connects the transforms
of the `i`-th and `(i+1)`-th points, i.e. consecutive transformed points in
insertion order. -/
theorem line_render_segments (cx : AxesContext) (ps : List Point2) :
    (buildLine ps).points = ps ∧
    ((buildLine ps).render_axes cx).length = ps.length - 1 ∧
    (ps.length ≤ 1 → (buildLine ps).render_axes cx = []) ∧
    ∀ i : ℕ,
      ((buildLine ps).render_axes cx)[i]? =
        (ps[i]?).bind fun a => (ps[i + 1]?).map fun b =>
          (transformPoint cx a, transformPoint cx b) := by
  have hpts : (buildLine ps).points = ps := buildLine_points ps
  have hlen : ((buildLine ps).render_axes cx).length = ps.length - 1 := by
    rw [Line.render_axes, hpts, List.length_zip, List.length_tail,
      List.length_map]
    exact min_eq_right (Nat.sub_le _ _)
  refine ⟨hpts, hlen, ?_, ?_⟩
  · intro hle
    apply List.eq_nil_of_length_eq_zero
    rw [hlen]
    omega
  · intro i
    rw [Line.render_axes, hpts]
    rw [zip_tail_getElem? (ps.map (transformPoint cx)) i]
    rw [List.getElem?_map, List.getElem?_map]
    cases ps[i]? <;> cases ps[i + 1]? <;> simp

theorem line_render_segments_witness :
    (([((0 : ℚ), (0 : ℚ))] : List Point2).length ≤ 1) ∧
    (buildLine [((0 : ℚ), (0 : ℚ))]).render_axes
      ⟨exampleBounds, exampleDest⟩ = [] :=
  ⟨by norm_num,
   (line_render_segments ⟨exampleBounds, exampleDest⟩
      [((0 : ℚ), (0 : ℚ))]).2.2.1 (by norm_num)⟩

/-- Claim C6: `clear_plots()` yields a figure with zero plots, is idempotent
(clearing twice equals clearing once, as full states), and leaves the rest
of the figure (its title) unchanged. -/
theorem clear_plots_empty_and_idempotent (m : FigureModel) :
    m.clear_plots.plots = [] ∧
    m.clear_plots.clear_plots = m.clear_plots ∧
    m.clear_plots.title = m.title :=
  ⟨rfl, rfl, rfl⟩

/-- Claim C7: `clear_elements()` empties the geometry list of the axes while
leaving the bounds and the grid configuration unchanged — only the element
list is modified. -/
theorem clear_elements_frame (a : AxesModel) :
    a.clear_elements.elements = [] ∧
    a.clear_elements.bounds = a.bounds ∧
    a.clear_elements.grid = a.grid :=
  ⟨rfl, rfl, rfl⟩

lemma sampleLoop_unfold (g : ℕ) (y : ℚ) :
    sampleLoop (g + 1) y =
      if y ≤ twoPi64 then y :: sampleLoop g (y + sampleStep) else [] := rfl

lemma sampleLoop_closed_form :
    ∀ (k f : ℕ) (x0 : ℚ), k ≤ f →
      (∀ i : ℕ, i < k → x0 + (i : ℚ) * sampleStep ≤ twoPi64) →
      ¬ (x0 + (k : ℚ) * sampleStep ≤ twoPi64) →
      sampleLoop f x0 =
        (List.range k).map fun (i : ℕ) => x0 + (i : ℚ) * sampleStep := by
  intro k
  induction k with
  | zero =>
    intro f x0 _ _ hend
    rw [Nat.cast_zero, zero_mul, add_zero] at hend
    cases f with
    | zero => simp [sampleLoop]
    | succ f => rw [sampleLoop_unfold, if_neg hend]; simp
  | succ k ih =>
    intro f x0 hkf hall hend
    obtain ⟨f', rfl⟩ : ∃ f', f = f' + 1 := ⟨f - 1, by omega⟩
    have hx0 : x0 ≤ twoPi64 := by
      have h := hall 0 (Nat.succ_pos k)
      rwa [Nat.cast_zero, zero_mul, add_zero] at h
    have hall' : ∀ i : ℕ, i < k →
        (x0 + sampleStep) + (i : ℚ) * sampleStep ≤ twoPi64 := by
      intro i hi
      have h := hall (i + 1) (by omega)
      push_cast at h
      linarith
    have hend' : ¬ ((x0 + sampleStep) + (k : ℚ) * sampleStep ≤ twoPi64) := by
      push_cast at hend
      intro hc
      exact hend (by linarith)
    rw [sampleLoop_unfold, if_pos hx0, ih f' (x0 + sampleStep) (by omega) hall' hend']
    rw [List.range_succ_eq_map, List.map_cons, List.map_map]
    rw [Nat.cast_zero, zero_mul, add_zero]
    congr 1
    apply List.map_congr_left
    intro i _
    simp only [Function.comp_apply, Nat.succ_eq_add_one]
    push_cast
    ring

lemma sampleXs_closed :
    sampleXs = (List.range 126).map fun (i : ℕ) => (0 : ℚ) + (i : ℚ) * sampleStep := by
  rw [sampleXs]
  apply sampleLoop_closed_form 126 200 0 (by omega)
  · intro i hi
    have hi' : (i : ℚ) ≤ 125 := by
      have h : i ≤ 125 := by omega
      exact_mod_cast h
    have h1 : (i : ℚ) * sampleStep ≤ 125 * sampleStep :=
      mul_le_mul_of_nonneg_right hi' (by norm_num [sampleStep])
    have h2 : (125 : ℚ) * sampleStep ≤ twoPi64 := by norm_num [sampleStep, twoPi64]
    linarith
  · norm_num [sampleStep, twoPi64]

lemma sampleLoop_mem_bounds :
    ∀ (f : ℕ) (x0 x : ℚ), x ∈ sampleLoop f x0 → x0 ≤ x ∧ x ≤ twoPi64 := by
  intro f
  induction f with
  | zero => intro x0 x hx; simp [sampleLoop] at hx
  | succ f ih =>
    intro x0 x hx
    rw [sampleLoop_unfold] at hx
    by_cases h : x0 ≤ twoPi64
    · rw [if_pos h] at hx
      rcases List.mem_cons.mp hx with rfl | hx'
      · exact ⟨le_refl x, h⟩
      · have hb := ih (x0 + sampleStep) x hx'
        have hstep : (0 : ℚ) ≤ sampleStep := by norm_num [sampleStep]
        exact ⟨by linarith [hb.1], hb.2⟩
    · rw [if_neg h] at hx
      simp at hx

/-- Claim C8: in the end-to-end scenario (x range 0 to 2π mapped onto a
0..800-wide destination), the sine sampling loop at step 0.05 produces
exactly 126 points; the first point (x = 0) transforms to screen x = 0 and
the last point (x = 25/4) transforms to within one step's screen width
below 800 (the rounding of the final partial step). -/
theorem sine_sampling_end_to_end :
    sampleXs.length = 126 ∧
    sampleXs.head? = some 0 ∧
    sampleXs.getLast? = some (25 / 4) ∧
    transformX exampleBounds.x exampleDest 0 = 0 ∧
    800 - 800 * sampleStep / exampleBounds.x.span ≤
      transformX exampleBounds.x exampleDest (25 / 4) ∧
    transformX exampleBounds.x exampleDest (25 / 4) < 800 := by
  have hr : List.range 126 = List.range 125 ++ [125] := List.range_succ 125
  have hspan : exampleBounds.x.span = twoPi64 := by
    norm_num [exampleBounds, AxisRange.span]
  have hspan0 : ¬ exampleBounds.x.span = 0 := by
    rw [hspan]; norm_num [twoPi64]
  refine ⟨?_, ?_, ?_, ?_, ?_, ?_⟩
  · rw [sampleXs_closed, List.length_map, List.length_range]
  · have h126 : List.range 126 = 0 :: List.map Nat.succ (List.range 125) :=
      List.range_succ_eq_map 125
    rw [sampleXs_closed, h126, List.map_cons]
    norm_num
  · rw [sampleXs_closed, hr, List.map_append, List.map_cons, List.map_nil,
      List.getLast?_concat]
    norm_num [sampleStep]
  · rw [transformX, if_neg hspan0]
    norm_num [exampleBounds, exampleDest]
  · rw [transformX, if_neg hspan0, hspan]
    norm_num [exampleBounds, exampleDest, sampleStep, twoPi64]
  · rw [transformX, if_neg hspan0, hspan]
    norm_num [exampleBounds, exampleDest, twoPi64]

/-- Claim C9: every x sampled by the example's sine and cosine loops lies
inside the declared x range [0, 2π], and the corresponding y values sin x
and cos x lie in [-1, 1], strictly inside the declared y range
[-1.5, 1.5] — so the transform's no-clipping policy is never exercised. -/
theorem sample_points_within_axes_bounds :
    ∀ x ∈ sampleXs,
      exampleBounds.x.min ≤ x ∧ x ≤ exampleBounds.x.max ∧
      -1 ≤ Real.sin (x : ℝ) ∧ Real.sin (x : ℝ) ≤ 1 ∧
      -1 ≤ Real.cos (x : ℝ) ∧ Real.cos (x : ℝ) ≤ 1 ∧
      (exampleBounds.y.min : ℝ) < Real.sin (x : ℝ) ∧
      Real.sin (x : ℝ) < (exampleBounds.y.max : ℝ) ∧
      (exampleBounds.y.min : ℝ) < Real.cos (x : ℝ) ∧
      Real.cos (x : ℝ) < (exampleBounds.y.max : ℝ) := by
  intro x hx
  have hb := sampleLoop_mem_bounds 200 0 x hx
  have hxmin : exampleBounds.x.min = 0 := rfl
  have hxmax : exampleBounds.x.max = twoPi64 := rfl
  have hymin : ((exampleBounds.y.min : ℚ) : ℝ) = -(3 / 2) := by
    norm_num [exampleBounds]
  have hymax : ((exampleBounds.y.max : ℚ) : ℝ) = 3 / 2 := by
    norm_num [exampleBounds]
  have hs1 := Real.neg_one_le_sin (x : ℝ)
  have hs2 := Real.sin_le_one (x : ℝ)
  have hc1 := Real.neg_one_le_cos (x : ℝ)
  have hc2 := Real.cos_le_one (x : ℝ)
  refine ⟨?_, ?_, hs1, hs2, hc1, hc2, ?_, ?_, ?_, ?_⟩
  · rw [hxmin]; exact hb.1
  · rw [hxmax]; exact hb.2
  · rw [hymin]; linarith
  · rw [hymax]; linarith
  · rw [hymin]; linarith
  · rw [hymax]; linarith

theorem sample_points_within_axes_bounds_witness :
    ((0 : ℚ) ∈ sampleXs) ∧
    (exampleBounds.x.min ≤ (0 : ℚ) ∧ (0 : ℚ) ≤ exampleBounds.x.max ∧
     -1 ≤ Real.sin ((0 : ℚ) : ℝ) ∧ Real.sin ((0 : ℚ) : ℝ) ≤ 1 ∧
     -1 ≤ Real.cos ((0 : ℚ) : ℝ) ∧ Real.cos ((0 : ℚ) : ℝ) ≤ 1 ∧
     (exampleBounds.y.min : ℝ) < Real.sin ((0 : ℚ) : ℝ) ∧
     Real.sin ((0 : ℚ) : ℝ) < (exampleBounds.y.max : ℝ) ∧
     (exampleBounds.y.min : ℝ) < Real.cos ((0 : ℚ) : ℝ) ∧
     Real.cos ((0 : ℚ) : ℝ) < (exampleBounds.y.max : ℝ)) := by
  have hmem : (0 : ℚ) ∈ sampleXs := by
    have h : sampleXs = (0 : ℚ) :: sampleLoop 199 (0 + sampleStep) := by
      rw [sampleXs, sampleLoop_unfold 199 0, if_pos (by norm_num [twoPi64])]
    rw [h]
    exact List.mem_cons_self _ _
  exact ⟨hmem, sample_points_within_axes_bounds 0 hmem⟩

/-- Claim C10: the sampling loops terminate — starting from x = 0 with the
constant positive step 0.05 and fixed bound 2π, the guard fails after
exactly 126 iterations: any fuel of at least 126 yields the same (complete)
126-point run, so the while loop runs finitely. -/
theorem sampling_loop_terminates :
    (∀ f : ℕ, 126 ≤ f → sampleLoop f 0 = sampleLoop 126 0) ∧
    (sampleLoop 126 0).length = 126 := by
  have hall : ∀ i : ℕ, i < 126 → (0 : ℚ) + (i : ℚ) * sampleStep ≤ twoPi64 := by
    intro i hi
    have hi' : (i : ℚ) ≤ 125 := by
      have h : i ≤ 125 := by omega
      exact_mod_cast h
    have h1 : (i : ℚ) * sampleStep ≤ 125 * sampleStep :=
      mul_le_mul_of_nonneg_right hi' (by norm_num [sampleStep])
    have h2 : (125 : ℚ) * sampleStep ≤ twoPi64 := by norm_num [sampleStep, twoPi64]
    linarith
  have hend : ¬ ((0 : ℚ) + (126 : ℚ) * sampleStep ≤ twoPi64) := by
    norm_num [sampleStep, twoPi64]
  have key : ∀ f : ℕ, 126 ≤ f →
      sampleLoop f 0 =
        (List.range 126).map fun (i : ℕ) => (0 : ℚ) + (i : ℚ) * sampleStep :=
    fun f hf => sampleLoop_closed_form 126 f 0 hf hall hend
  constructor
  · intro f hf
    rw [key f hf, ← key 126 (le_refl 126)]
  · rw [key 126 (le_refl 126), List.length_map, List.length_range]

theorem sampling_loop_terminates_witness :
    (126 : ℕ) ≤ 200 ∧ sampleLoop 200 0 = sampleLoop 126 0 :=
  ⟨by omega, sampling_loop_terminates.1 200 (by omega)⟩

end GpuiPlot
